import Mathlib

/-!
Verification of the anaglyph 3D video player (src/script.js) against its
natural-language specification.

The per-frame pixel pipeline of script.js is shallowly embedded below:
JavaScript numbers are modelled as exact rationals (all literals involved are
decimal fractions), pixel buffers (ImageData.data, a flat RGBA
Uint8ClampedArray) as lists of naturals, and storage into a
Uint8ClampedArray element as clamping to [0, 255] followed by rounding to
the nearest integer with ties to even, which is the conversion that array
type performs.
-/

namespace Anaglyph

/-- A filter preset: a pair of 3-component channel-selector masks,
from the ANAGLYPH_MODES table of script.js (lines 37-41). -/
structure Mode where
  left : List ℕ
  right : List ℕ
deriving DecidableEq

def red_cyan : Mode := ⟨[1, 0, 0], [0, 1, 1]⟩

def green_magenta : Mode := ⟨[0, 1, 0], [1, 0, 1]⟩

def blue_yellow : Mode := ⟨[0, 0, 1], [1, 1, 0]⟩

/-- The three built-in presets, in table order. -/
def builtinModes : List Mode := [red_cyan, green_magenta, blue_yellow]

/-- The ANAGLYPH_MODES lookup: preset identifier string to mask pair;
unknown identifiers yield none (the code reads a property that is
undefined). -/
def ANAGLYPH_MODES : String → Option Mode
  | "red_cyan" => some red_cyan
  | "green_magenta" => some green_magenta
  | "blue_yellow" => some blue_yellow
  | _ => none

/-- JavaScript array indexing mode.left[c] on the mask arrays. -/
def maskGet (l : List ℕ) (c : ℕ) : ℕ := l.getD c 0

/-- getGrayscale (script.js lines 50-52): luminosity-weighted grayscale,
(r * 0.3) + (g * 0.59) + (b * 0.11), over exact rationals. -/
def getGrayscale (r g b : ℚ) : ℚ :=
  (r * (3 / 10)) + (g * (59 / 100)) + (b * (11 / 100))

/-- Clamping a computed channel value to the displayable range [0, 255],
the first half of what storing into a Uint8ClampedArray element does. -/
def clamp255 (x : ℚ) : ℚ :=
  if x < 0 then 0 else if 255 < x then 255 else x

/-- Round to the nearest integer, ties to even: the rounding used by
Uint8ClampedArray conversion. -/
def roundHalfEven (x : ℚ) : ℤ :=
  if x - ⌊x⌋ < 1 / 2 then ⌊x⌋
  else if 1 / 2 < x - ⌊x⌋ then ⌊x⌋ + 1
  else if 2 ∣ ⌊x⌋ then ⌊x⌋ else ⌊x⌋ + 1

/-- Storing a computed rational channel value into a Uint8ClampedArray
element: clamp to [0, 255], then round to the nearest integer. -/
def store (x : ℚ) : ℕ := (roundHalfEven (clamp255 x)).toNat

/-- One RGB pixel as read from the frame buffers (channel values are
naturals in [0, 255] when they come from a Uint8ClampedArray). -/
structure Pix where
  r : ℕ
  g : ℕ
  b : ℕ
deriving DecidableEq

/-- The grayscale of a buffer pixel (the R_L_Gray / G_L_Gray / B_L_Gray /
R_R_Gray / ... values of script.js lines 256-262; the code computes the
same value three times per eye). -/
def grayOf (p : Pix) : ℚ := getGrayscale p.r p.g p.b

/-- Red output channel R_out (script.js lines 268-269):
(mode.left[0] === 1 ? R_L : R_L_Gray) * mode.left[0]
  + (mode.right[0] === 1 ? R_R_Gray : 0) * mode.right[0]. -/
def R_out (m : Mode) (L R : Pix) : ℚ :=
  (if maskGet m.left 0 = 1 then (L.r : ℚ) else grayOf L) * maskGet m.left 0
    + (if maskGet m.right 0 = 1 then grayOf R else 0) * maskGet m.right 0

/-- Green output channel G_out (script.js lines 272-273). -/
def G_out (m : Mode) (L R : Pix) : ℚ :=
  (if maskGet m.left 1 = 1 then (L.g : ℚ) else grayOf L) * maskGet m.left 1
    + (if maskGet m.right 1 = 1 then grayOf R else 0) * maskGet m.right 1

/-- Blue output channel B_out (script.js lines 276-277). -/
def B_out (m : Mode) (L R : Pix) : ℚ :=
  (if maskGet m.left 2 = 1 then (L.b : ℚ) else grayOf L) * maskGet m.left 2
    + (if maskGet m.right 2 = 1 then grayOf R else 0) * maskGet m.right 2

/-- Channel c of a pixel (c = 0 red, 1 green, 2 blue). -/
def chanRaw (p : Pix) : ℕ → ℕ
  | 0 => p.r
  | 1 => p.g
  | 2 => p.b
  | _ => 0

/-- Modelled from the spec (section 4.2 step 3): leftContribution =
(Left pixel channel-c raw value if left-mask[c] = 1, else grayL)
times left-mask[c]. -/
def spec_leftContribution (m : Mode) (L : Pix) (c : ℕ) : ℚ :=
  (if maskGet m.left c = 1 then (chanRaw L c : ℚ) else grayOf L) * maskGet m.left c

/-- Modelled from the spec (section 4.2 step 4): rightContribution =
(grayR if right-mask[c] = 1, else 0) times right-mask[c]. -/
def spec_rightContribution (m : Mode) (R : Pix) (c : ℕ) : ℚ :=
  (if maskGet m.right c = 1 then grayOf R else 0) * maskGet m.right c

/-- Modelled from the spec (section 4.2 step 5): output[c] =
leftContribution + rightContribution, clamped to [0, 255] and rounded
to an integer channel value before storage. -/
def spec_output (m : Mode) (L R : Pix) (c : ℕ) : ℕ :=
  store (spec_leftContribution m L c + spec_rightContribution m R c)

/-- C2: for all three built-in presets and every output channel index c,
left-mask[c] + right-mask[c] = 1: exactly one of the two eye masks is 1
at each channel, so no channel is double-sourced or dropped. -/
theorem masks_complementary (m : Mode) (hm : m ∈ builtinModes)
    (c : ℕ) (hc : c < 3) :
    maskGet m.left c + maskGet m.right c = 1 := by
  fin_cases hm <;> interval_cases c <;> decide

theorem masks_complementary_witness :
    red_cyan ∈ builtinModes ∧ 0 < 3 ∧
      maskGet red_cyan.left 0 + maskGet red_cyan.right 0 = 1 :=
  ⟨by decide, by decide,
    masks_complementary red_cyan (by decide) 0 (by decide)⟩

/-- C3: for every (R,G,B) triple with each component in [0, 255], the
grayscale function returns exactly 0.3 R + 0.59 G + 0.11 B; in particular
grayscale(255,255,255) = 255 and grayscale(0,0,0) = 0. -/
theorem getGrayscale_formula (r g b : ℕ)
    (hr : r ≤ 255) (hg : g ≤ 255) (hb : b ≤ 255) :
    getGrayscale r g b = (3 / 10) * r + (59 / 100) * g + (11 / 100) * b ∧
      getGrayscale 255 255 255 = 255 ∧ getGrayscale 0 0 0 = 0 := by
  refine ⟨?_, ?_, ?_⟩
  · unfold getGrayscale; ring
  · unfold getGrayscale; norm_num
  · unfold getGrayscale; norm_num

theorem getGrayscale_formula_witness :
    (200 : ℕ) ≤ 255 ∧ (50 : ℕ) ≤ 255 ∧ (50 : ℕ) ≤ 255 ∧
      (getGrayscale 200 50 50 = (3 / 10) * 200 + (59 / 100) * 50 + (11 / 100) * 50 ∧
        getGrayscale 255 255 255 = 255 ∧ getGrayscale 0 0 0 = 0) :=
  ⟨by decide, by decide, by decide,
    getGrayscale_formula 200 50 50 (by decide) (by decide) (by decide)⟩

/-- Helper: the grayscale of an in-range buffer pixel lies in [0, 255]
(the weights 0.3 + 0.59 + 0.11 sum to 1). -/
theorem grayOf_bounds (p : Pix) (hr : p.r ≤ 255) (hg : p.g ≤ 255)
    (hb : p.b ≤ 255) : 0 ≤ grayOf p ∧ grayOf p ≤ 255 := by
  have hr' : (p.r : ℚ) ≤ 255 := by exact_mod_cast hr
  have hg' : (p.g : ℚ) ≤ 255 := by exact_mod_cast hg
  have hb' : (p.b : ℚ) ≤ 255 := by exact_mod_cast hb
  have hr0 : (0 : ℚ) ≤ p.r := by positivity
  have hg0 : (0 : ℚ) ≤ p.g := by positivity
  have hb0 : (0 : ℚ) ≤ p.b := by positivity
  unfold grayOf getGrayscale
  constructor <;> nlinarith

/-- C1: for every built-in preset and every left/right input pixel pair, the
code's three channel outputs (R_out, G_out, B_out of script.js lines
268-277), stored through the Uint8ClampedArray conversion, equal the
spec's formula output[c] = leftContribution + rightContribution clamped to
[0, 255] and rounded to an integer, at channels c = 0, 1, 2. -/
theorem per_pixel_transform_matches_spec (m : Mode) (hm : m ∈ builtinModes)
    (L R : Pix) :
    store (R_out m L R) = spec_output m L R 0 ∧
      store (G_out m L R) = spec_output m L R 1 ∧
      store (B_out m L R) = spec_output m L R 2 := by
  fin_cases hm <;>
    exact ⟨rfl, rfl, rfl⟩

theorem per_pixel_transform_matches_spec_witness :
    red_cyan ∈ builtinModes ∧
      (store (R_out red_cyan ⟨200, 50, 50⟩ ⟨50, 200, 50⟩) =
          spec_output red_cyan ⟨200, 50, 50⟩ ⟨50, 200, 50⟩ 0 ∧
        store (G_out red_cyan ⟨200, 50, 50⟩ ⟨50, 200, 50⟩) =
          spec_output red_cyan ⟨200, 50, 50⟩ ⟨50, 200, 50⟩ 1 ∧
        store (B_out red_cyan ⟨200, 50, 50⟩ ⟨50, 200, 50⟩) =
          spec_output red_cyan ⟨200, 50, 50⟩ ⟨50, 200, 50⟩ 2) :=
  ⟨by decide,
    per_pixel_transform_matches_spec red_cyan (by decide) ⟨200, 50, 50⟩ ⟨50, 200, 50⟩⟩

/-- C4 counterexample: under the Red/Cyan preset with Left pixel
(200,50,50) and Right pixel (50,200,50), the green output channel equals
grayscale(50,200,50) = 138.5, which is not close to the 147.5 the claim
states (it is off by 9, far beyond any rounding tolerance). -/
theorem red_cyan_example_green_not_147_5 :
    G_out red_cyan ⟨200, 50, 50⟩ ⟨50, 200, 50⟩ = 277 / 2 ∧
      ¬ |G_out red_cyan ⟨200, 50, 50⟩ ⟨50, 200, 50⟩ - 295 / 2| ≤ 1 / 2 := by
  constructor
  · unfold G_out maskGet red_cyan grayOf getGrayscale
    norm_num
  · unfold G_out maskGet red_cyan grayOf getGrayscale
    intro h
    rw [abs_le] at h
    norm_num at h

/-- C4 amended: under the Red/Cyan preset with Left pixel (200,50,50) and
Right pixel (50,200,50), the output red channel equals 200 (pure left
red), and the output green and blue channels each equal
grayscale(50,200,50) = 138.5 (before integer storage). -/
theorem red_cyan_example_outputs :
    R_out red_cyan ⟨200, 50, 50⟩ ⟨50, 200, 50⟩ = 200 ∧
      G_out red_cyan ⟨200, 50, 50⟩ ⟨50, 200, 50⟩ = getGrayscale 50 200 50 ∧
      B_out red_cyan ⟨200, 50, 50⟩ ⟨50, 200, 50⟩ = getGrayscale 50 200 50 ∧
      getGrayscale 50 200 50 = 277 / 2 := by
  refine ⟨?_, ?_, ?_, ?_⟩
  · unfold R_out maskGet red_cyan grayOf getGrayscale
    norm_num
  · unfold G_out maskGet red_cyan grayOf getGrayscale
    norm_num
  · unfold B_out maskGet red_cyan grayOf getGrayscale
    norm_num
  · unfold getGrayscale
    norm_num

/-- C10: for every built-in preset and in-range input pixels, each computed
channel output already lies in [0, 255] before any clamping, so the clamp
step never changes the value: exactly one eye contributes (masks are
complementary), and that contribution is a raw channel value or an
in-range grayscale. -/
theorem outputs_in_range_preclamp (m : Mode) (hm : m ∈ builtinModes)
    (L R : Pix) (hLr : L.r ≤ 255) (hLg : L.g ≤ 255) (hLb : L.b ≤ 255)
    (hRr : R.r ≤ 255) (hRg : R.g ≤ 255) (hRb : R.b ≤ 255) :
    (0 ≤ R_out m L R ∧ R_out m L R ≤ 255 ∧
        clamp255 (R_out m L R) = R_out m L R) ∧
      (0 ≤ G_out m L R ∧ G_out m L R ≤ 255 ∧
        clamp255 (G_out m L R) = G_out m L R) ∧
      (0 ≤ B_out m L R ∧ B_out m L R ≤ 255 ∧
        clamp255 (B_out m L R) = B_out m L R) := by
  have hL := grayOf_bounds L hLr hLg hLb
  have hR := grayOf_bounds R hRr hRg hRb
  have hLr' : (0 : ℚ) ≤ L.r ∧ (L.r : ℚ) ≤ 255 :=
    ⟨by positivity, by exact_mod_cast hLr⟩
  have hLg' : (0 : ℚ) ≤ L.g ∧ (L.g : ℚ) ≤ 255 :=
    ⟨by positivity, by exact_mod_cast hLg⟩
  have hLb' : (0 : ℚ) ≤ L.b ∧ (L.b : ℚ) ≤ 255 :=
    ⟨by positivity, by exact_mod_cast hLb⟩
  have hclamp : ∀ x : ℚ, 0 ≤ x → x ≤ 255 →
      (0 ≤ x ∧ x ≤ 255 ∧ clamp255 x = x) := by
    intro x h0 h255
    refine ⟨h0, h255, ?_⟩
    unfold clamp255
    rw [if_neg (by linarith), if_neg (by linarith)]
  simp only [builtinModes, List.mem_cons, List.not_mem_nil, or_false] at hm
  rcases hm with rfl | rfl | rfl
  · refine ⟨?_, ?_, ?_⟩
    · have h : R_out red_cyan L R = (L.r : ℚ) := by
        norm_num [R_out, maskGet, red_cyan]
      rw [h]; exact hclamp _ hLr'.1 hLr'.2
    · have h : G_out red_cyan L R = grayOf R := by
        norm_num [G_out, maskGet, red_cyan]
      rw [h]; exact hclamp _ hR.1 hR.2
    · have h : B_out red_cyan L R = grayOf R := by
        norm_num [B_out, maskGet, red_cyan]
      rw [h]; exact hclamp _ hR.1 hR.2
  · refine ⟨?_, ?_, ?_⟩
    · have h : R_out green_magenta L R = grayOf R := by
        norm_num [R_out, maskGet, green_magenta]
      rw [h]; exact hclamp _ hR.1 hR.2
    · have h : G_out green_magenta L R = (L.g : ℚ) := by
        norm_num [G_out, maskGet, green_magenta]
      rw [h]; exact hclamp _ hLg'.1 hLg'.2
    · have h : B_out green_magenta L R = grayOf R := by
        norm_num [B_out, maskGet, green_magenta]
      rw [h]; exact hclamp _ hR.1 hR.2
  · refine ⟨?_, ?_, ?_⟩
    · have h : R_out blue_yellow L R = grayOf R := by
        norm_num [R_out, maskGet, blue_yellow]
      rw [h]; exact hclamp _ hR.1 hR.2
    · have h : G_out blue_yellow L R = grayOf R := by
        norm_num [G_out, maskGet, blue_yellow]
      rw [h]; exact hclamp _ hR.1 hR.2
    · have h : B_out blue_yellow L R = (L.b : ℚ) := by
        norm_num [B_out, maskGet, blue_yellow]
      rw [h]; exact hclamp _ hLb'.1 hLb'.2

theorem outputs_in_range_preclamp_witness :
    red_cyan ∈ builtinModes ∧
      (0 ≤ R_out red_cyan ⟨200, 50, 50⟩ ⟨50, 200, 50⟩ ∧
        R_out red_cyan ⟨200, 50, 50⟩ ⟨50, 200, 50⟩ ≤ 255 ∧
        clamp255 (R_out red_cyan ⟨200, 50, 50⟩ ⟨50, 200, 50⟩) =
          R_out red_cyan ⟨200, 50, 50⟩ ⟨50, 200, 50⟩) :=
  ⟨by decide,
    (outputs_in_range_preclamp red_cyan (by decide) ⟨200, 50, 50⟩ ⟨50, 200, 50⟩
      (by decide) (by decide) (by decide) (by decide) (by decide) (by decide)).1⟩

/-! ## The per-cycle control flow of processFrame (script.js lines 213-290) -/

/-- What one invocation of processFrame does at the control level:
return without rescheduling, reschedule without touching pixels, or
process the frame and reschedule. -/
inductive FrameAction
  | terminate
  | skipReschedule
  | processReschedule
deriving DecidableEq

/-- The state processFrame reads: the media element's paused/ended flags,
the output canvas dimensions, the native stream width, and the selected
preset identifier. -/
structure PlayerState where
  paused : Bool
  ended : Bool
  canvasWidth : ℕ
  canvasHeight : ℕ
  videoWidth : ℕ
  anaglyphMode : String

/-- The branch structure of processFrame (script.js lines 214-227): if
paused or ended, return with animationFrameId = null; else if the mode
lookup failed or the canvas width or height is 0, reschedule and skip;
else process and reschedule. The native stream width (sourceWidth) is
read but never tested. -/
def processFrameAction (s : PlayerState) : FrameAction :=
  if s.paused || s.ended then .terminate
  else if (ANAGLYPH_MODES s.anaglyphMode).isNone
      || s.canvasWidth == 0 || s.canvasHeight == 0 then .skipReschedule
  else .processReschedule

/-- C5 counterexample: a cycle with a known preset, nonzero display
dimensions, but native stream width 0 still processes the frame (performs
extraction and the transform) instead of skipping, refuting the claim
that a zero native stream width causes the iteration to be skipped. -/
theorem zero_videoWidth_still_processes :
    (PlayerState.mk false false 960 540 0 "red_cyan").videoWidth = 0 ∧
      processFrameAction (PlayerState.mk false false 960 540 0 "red_cyan") =
        FrameAction.processReschedule := by
  constructor
  · rfl
  · rfl

/-- C5 amended: on a cycle not terminated by pause/end, the iteration is
skipped (no extraction, no transform) and rescheduled exactly when the
selected preset is not in the known set, or the display width is zero, or
the display height is zero; a zero native stream width alone does not
prevent processing. -/
theorem skip_condition_characterization (s : PlayerState) :
    processFrameAction s = FrameAction.skipReschedule ↔
      (¬(s.paused = true ∨ s.ended = true) ∧
        ((ANAGLYPH_MODES s.anaglyphMode).isNone = true ∨
          s.canvasWidth = 0 ∨ s.canvasHeight = 0)) := by
  unfold processFrameAction
  rcases s with ⟨p, e, w, h, vw, mode⟩
  simp only
  by_cases hpe : (p || e) = true
  · rw [if_pos hpe]
    simp only [Bool.or_eq_true] at hpe
    simp [hpe]
  · rw [if_neg hpe]
    simp only [Bool.or_eq_true] at hpe
    push_neg at hpe
    by_cases hc : ((ANAGLYPH_MODES mode).isNone || w == 0 || h == 0) = true
    · rw [if_pos hc]
      simp only [Bool.or_eq_true, beq_iff_eq] at hc
      simp only [hpe, not_or, Bool.not_eq_true]
      tauto
    · rw [if_neg hc]
      simp only [Bool.or_eq_true, beq_iff_eq] at hc
      push_neg at hc
      simp only [hpe, not_or, Bool.not_eq_true]
      constructor
      · intro h'; cases h'
      · intro ⟨_, h'⟩
        rcases h' with h' | h' | h'
        · exact absurd h' (by simp [hc.1.1])
        · exact absurd h' hc.1.2
        · exact absurd h' hc.2

/-- C6: a cycle invocation terminates without rescheduling exactly when
the stream is paused or has ended; every other invocation reschedules
(either skipping or processing). -/
theorem terminate_iff_paused_or_ended (s : PlayerState) :
    processFrameAction s = FrameAction.terminate ↔
      (s.paused = true ∨ s.ended = true) := by
  unfold processFrameAction
  by_cases hpe : (s.paused || s.ended) = true
  · rw [if_pos hpe]
    simp only [Bool.or_eq_true] at hpe
    simp [hpe]
  · rw [if_neg hpe]
    simp only [Bool.or_eq_true] at hpe
    by_cases hc : ((ANAGLYPH_MODES s.anaglyphMode).isNone
        || s.canvasWidth == 0 || s.canvasHeight == 0) = true
    · rw [if_pos hc]; simp [hpe]
    · rw [if_neg hc]; simp [hpe]

/-! ## The scheduling state machine (attemptPlayback, togglePlayback,
processFrame rescheduling) -/

/-- The scheduling-relevant state: the media paused/ended flags, the
isVideoPlaying flag, whether animationFrameId currently holds an id, and
how many requestAnimationFrame requests are actually outstanding. -/
structure SchedState where
  paused : Bool
  ended : Bool
  isVideoPlaying : Bool
  frameId : Bool
  outstanding : ℕ
deriving DecidableEq

/-- Events of the play/pause/cycle machine: a successful play (the
attemptPlayback resolve branch, lines 125-132), a rejected play (the
catch branch, lines 133-138), the pause branch of togglePlayback (lines
113-118), the stream ending, and the scheduler firing a pending frame
callback (running processFrame). -/
inductive SchedEvent
  | playOk
  | playBlocked
  | pauseBtn
  | endOfStream
  | frameFire

/-- Initial state: nothing loaded or playing, no frame requested. -/
def initState : SchedState :=
  ⟨true, false, false, false, 0⟩

/-- One transition of the machine. playOk re-arms scheduling only when
animationFrameId is null (the guard on line 130). frameFire consumes the
outstanding request, then either terminates (paused or ended: id set to
null, no new request) or reschedules (both the skip path line 225 and the
process path line 289 issue exactly one new request). -/
def stepF (s : SchedState) : SchedEvent → Option SchedState
  | .playOk =>
      some { s with paused := false, ended := false, isVideoPlaying := true,
                    frameId := true,
                    outstanding :=
                      if s.frameId then s.outstanding else s.outstanding + 1 }
  | .playBlocked => some { s with isVideoPlaying := false }
  | .pauseBtn =>
      if s.paused then none
      else some { s with paused := true, isVideoPlaying := false }
  | .endOfStream => some { s with ended := true }
  | .frameFire =>
      if s.outstanding = 0 then none
      else if s.paused || s.ended then
        some { s with outstanding := s.outstanding - 1, frameId := false }
      else
        some { s with outstanding := s.outstanding - 1 + 1, frameId := true }

/-- States reachable from the initial state. -/
inductive Reachable : SchedState → Prop
  | init : Reachable initState
  | step (s : SchedState) (e : SchedEvent) (s' : SchedState) :
      Reachable s → stepF s e = some s' → Reachable s'

/-- The scheduling invariant: at most one outstanding request, the
animationFrameId flag tracks it exactly, and a playing non-paused
non-ended state always has its cycle armed. -/
def SchedInv (s : SchedState) : Prop :=
  s.outstanding ≤ 1 ∧ (s.frameId = true ↔ s.outstanding = 1) ∧
    (s.isVideoPlaying = true → s.paused = false → s.ended = false →
      s.frameId = true)

theorem schedInv_init : SchedInv initState := by
  refine ⟨by decide, by decide, by decide⟩

theorem schedInv_step (s : SchedState) (e : SchedEvent) (s' : SchedState)
    (hs : SchedInv s) (hstep : stepF s e = some s') : SchedInv s' := by
  obtain ⟨h1, h2, h3⟩ := hs
  cases e
  case playOk =>
    simp only [stepF, Option.some.injEq] at hstep
    subst hstep
    by_cases hf : s.frameId = true
    · refine ⟨by simp [hf, h2.mp hf], ?_, ?_⟩
      · simp [hf, h2.mp hf]
      · intro _ _ _; simp [hf]
    · simp only [Bool.not_eq_true] at hf
      have h0 : s.outstanding ≠ 1 := fun h => by simp [h2.mpr h] at hf
      refine ⟨by simp [hf]; omega, by simp [hf]; omega, ?_⟩
      intro _ _ _; simp [hf]
  case playBlocked =>
    simp only [stepF, Option.some.injEq] at hstep
    subst hstep
    exact ⟨h1, h2, by intro h; simp at h⟩
  case pauseBtn =>
    simp only [stepF] at hstep
    by_cases hp : s.paused = true
    · simp [hp] at hstep
    · simp only [Bool.not_eq_true] at hp
      rw [hp] at hstep
      simp only [Bool.false_eq_true, if_false, Option.some.injEq] at hstep
      subst hstep
      exact ⟨h1, h2, by intro h; simp at h⟩
  case endOfStream =>
    simp only [stepF, Option.some.injEq] at hstep
    subst hstep
    exact ⟨h1, h2, by intro _ _ h; simp at h⟩
  case frameFire =>
    simp only [stepF] at hstep
    by_cases h0 : s.outstanding = 0
    · simp [h0] at hstep
    · rw [if_neg h0] at hstep
      have hone : s.outstanding = 1 := by omega
      by_cases hpe : (s.paused || s.ended) = true
      · rw [if_pos hpe, Option.some.injEq] at hstep
        subst hstep
        refine ⟨by simp [hone], by simp [hone], ?_⟩
        intro _ hp he
        simp only [Bool.or_eq_true] at hpe
        rw [hp, he] at hpe
        simp at hpe
      · rw [if_neg hpe, Option.some.injEq] at hstep
        subst hstep
        exact ⟨by simp [hone], by simp [hone], by intro _ _ _; simp⟩

/-- Every reachable state satisfies the scheduling invariant. -/
theorem reachable_schedInv (s : SchedState) (h : Reachable s) : SchedInv s := by
  induction h with
  | init => exact schedInv_init
  | step s e s' _ hstep ih => exact schedInv_step s e s' ih hstep

/-- C7: in every reachable state of the play/pause/cycle machine at most
one scheduling request is outstanding; in a playing, non-paused,
non-ended reachable state exactly one is outstanding (no stall); and
after any pause-then-resume sequence from a reachable state, exactly one
request is outstanding. -/
theorem single_outstanding_schedule (s : SchedState) (h : Reachable s) :
    s.outstanding ≤ 1 ∧
      (s.isVideoPlaying = true → s.paused = false → s.ended = false →
        s.outstanding = 1) ∧
      (∀ s' s'', stepF s SchedEvent.pauseBtn = some s' →
        stepF s' SchedEvent.playOk = some s'' → s''.outstanding = 1) := by
  obtain ⟨h1, h2, h3⟩ := reachable_schedInv s h
  refine ⟨h1, fun hp hq hr => h2.mp (h3 hp hq hr), ?_⟩
  intro s' s'' hstep1 hstep2
  simp only [stepF] at hstep1
  by_cases hp : s.paused = true
  · simp [hp] at hstep1
  · simp only [Bool.not_eq_true] at hp
    rw [hp] at hstep1
    simp only [Bool.false_eq_true, if_false, Option.some.injEq] at hstep1
    subst hstep1
    simp only [stepF, Option.some.injEq] at hstep2
    subst hstep2
    by_cases hf : s.frameId = true
    · simp [hf, h2.mp hf]
    · simp only [Bool.not_eq_true] at hf
      have h0 : s.outstanding ≠ 1 := fun hh => by simp [h2.mpr hh] at hf
      simp [hf]
      omega

theorem single_outstanding_schedule_witness :
    (SchedState.mk false false true true 1).outstanding ≤ 1 ∧
      ((SchedState.mk false false true true 1).isVideoPlaying = true →
        (SchedState.mk false false true true 1).paused = false →
        (SchedState.mk false false true true 1).ended = false →
        (SchedState.mk false false true true 1).outstanding = 1) ∧
      (∀ s' s'',
        stepF (SchedState.mk false false true true 1) SchedEvent.pauseBtn =
          some s' →
        stepF s' SchedEvent.playOk = some s'' → s''.outstanding = 1) :=
  single_outstanding_schedule (SchedState.mk false false true true 1)
    (Reachable.step initState SchedEvent.playOk
      (SchedState.mk false false true true 1) Reachable.init rfl)

/-! ## The pixel-buffer loop (script.js lines 246-283)

The anaglyph conversion loop walks the flat RGBA buffers (leftPixels,
rightPixels) four bytes at a time, reads R, G, B of each eye at offset i,
writes R_out, G_out, B_out back into the left buffer at offset i, and
never touches offset i + 3 (alpha). Writes land only in the already
consumed prefix, so the recursive rendering below has the same semantics
as the in-place JavaScript loop. -/

/-- The conversion loop over the two flat RGBA buffers, producing the
composite buffer (the code overwrites leftPixels in place). If fewer than
four bytes of either buffer remain, the loop leaves the rest of the left
buffer as is. -/
def processPixels (m : Mode) : List ℕ → List ℕ → List ℕ
  | lr :: lg :: lb :: la :: lrest, rr :: rg :: rb :: _ra :: rrest =>
      store (R_out m ⟨lr, lg, lb⟩ ⟨rr, rg, rb⟩) ::
        store (G_out m ⟨lr, lg, lb⟩ ⟨rr, rg, rb⟩) ::
        store (B_out m ⟨lr, lg, lb⟩ ⟨rr, rg, rb⟩) ::
        la :: processPixels m lrest rrest
  | l, _ => l

/-- Group a flat RGBA buffer into (r, g, b, a) quadruples. -/
def toPixels : List ℕ → List (ℕ × ℕ × ℕ × ℕ)
  | r :: g :: b :: a :: rest => (r, g, b, a) :: toPixels rest
  | _ => []

/-- Flatten quadruples back into a flat RGBA buffer. -/
def fromPixels : List (ℕ × ℕ × ℕ × ℕ) → List ℕ
  | [] => []
  | (r, g, b, a) :: rest => r :: g :: b :: a :: fromPixels rest

/-- The per-pixel transform as a pure function of one left and one right
RGBA quadruple: the three stored channel outputs plus the left pixel's
alpha. -/
def pixelPure (m : Mode) : ℕ × ℕ × ℕ × ℕ → ℕ × ℕ × ℕ × ℕ → ℕ × ℕ × ℕ × ℕ
  | (lr, lg, lb, la), (rr, rg, rb, _ra) =>
      (store (R_out m ⟨lr, lg, lb⟩ ⟨rr, rg, rb⟩),
        store (G_out m ⟨lr, lg, lb⟩ ⟨rr, rg, rb⟩),
        store (B_out m ⟨lr, lg, lb⟩ ⟨rr, rg, rb⟩), la)

/-- The buffer loop equals the pure pixelwise map over the original input
buffers: every output pixel is a function of the input pixels at its own
position only, so the in-place writes never feed back into later reads. -/
theorem processPixels_eq_pure (m : Mode) (L R : List ℕ) :
    L.length = R.length → L.length % 4 = 0 →
    processPixels m L R =
      fromPixels (List.zipWith (pixelPure m) (toPixels L) (toPixels R)) := by
  induction L, R using processPixels.induct m with
  | case1 lr lg lb la lrest rr rg rb ra rrest ih =>
    intro hlen hmod
    simp only [List.length_cons] at hlen hmod
    have hlen' : lrest.length = rrest.length := by omega
    have hmod' : lrest.length % 4 = 0 := by omega
    simp only [processPixels, toPixels, List.zipWith, pixelPure, fromPixels]
    exact congrArg _ (congrArg _ (congrArg _ (congrArg _ (ih hlen' hmod'))))
  | case2 l r h =>
    intro hlen hmod
    rcases l with _ | ⟨a, _ | ⟨b, _ | ⟨c, _ | ⟨d, rest⟩⟩⟩⟩
    · cases r with
      | nil => rfl
      | cons x xs => simp at hlen
    · simp only [List.length_cons, List.length_nil] at hmod; omega
    · simp only [List.length_cons, List.length_nil] at hmod; omega
    · simp only [List.length_cons, List.length_nil] at hmod; omega
    · rcases r with _ | ⟨e, _ | ⟨f, _ | ⟨g', _ | ⟨i, rrest⟩⟩⟩⟩ <;>
        first
        | (simp only [List.length_cons, List.length_nil] at hlen; omega)
        | exact (h a b c d rest e f g' i rrest rfl rfl).elim

/-- C8: the per-frame transform is a pure function of the frozen left and
right buffers and the preset: running it twice yields the same composite
both times, and the composite is the pixelwise map of the original
inputs, with no hidden accumulation across runs or across pixels. -/
theorem transform_pure (m : Mode) (L R : List ℕ)
    (hlen : L.length = R.length) (hmod : L.length % 4 = 0) :
    processPixels m L R = processPixels m L R ∧
      processPixels m L R =
        fromPixels (List.zipWith (pixelPure m) (toPixels L) (toPixels R)) :=
  ⟨rfl, processPixels_eq_pure m L R hlen hmod⟩

theorem transform_pure_witness :
    ([10, 20, 30, 40, 50, 60, 70, 80] : List ℕ).length =
        ([1, 2, 3, 4, 5, 6, 7, 8] : List ℕ).length ∧
      ([10, 20, 30, 40, 50, 60, 70, 80] : List ℕ).length % 4 = 0 ∧
      (processPixels red_cyan [10, 20, 30, 40, 50, 60, 70, 80]
          [1, 2, 3, 4, 5, 6, 7, 8] =
        processPixels red_cyan [10, 20, 30, 40, 50, 60, 70, 80]
          [1, 2, 3, 4, 5, 6, 7, 8] ∧
        processPixels red_cyan [10, 20, 30, 40, 50, 60, 70, 80]
            [1, 2, 3, 4, 5, 6, 7, 8] =
          fromPixels (List.zipWith (pixelPure red_cyan)
            (toPixels [10, 20, 30, 40, 50, 60, 70, 80])
            (toPixels [1, 2, 3, 4, 5, 6, 7, 8]))) :=
  ⟨by decide, by decide,
    transform_pure red_cyan [10, 20, 30, 40, 50, 60, 70, 80]
      [1, 2, 3, 4, 5, 6, 7, 8] (by decide) (by decide)⟩

/-- C9: at every pixel position the loop writes only the red, green and
blue bytes of the composite buffer; the alpha byte at offset 4k + 3 is
whatever the left (composite) buffer held there before the transform. -/
theorem alpha_untouched (m : Mode) (k : ℕ) (L R : List ℕ) :
    (processPixels m L R).getD (4 * k + 3) 0 = L.getD (4 * k + 3) 0 := by
  induction k generalizing L R with
  | zero =>
    rcases L with _ | ⟨lr, _ | ⟨lg, _ | ⟨lb, _ | ⟨la, lrest⟩⟩⟩⟩ <;>
      rcases R with _ | ⟨rr, _ | ⟨rg, _ | ⟨rb, _ | ⟨ra, rrest⟩⟩⟩⟩ <;>
      simp [processPixels, List.getD]
  | succ k ih =>
    rcases L with _ | ⟨lr, _ | ⟨lg, _ | ⟨lb, _ | ⟨la, lrest⟩⟩⟩⟩ <;>
      rcases R with _ | ⟨rr, _ | ⟨rg, _ | ⟨rb, _ | ⟨ra, rrest⟩⟩⟩⟩
    case cons.cons.cons.cons.cons.cons.cons.cons =>
      have hidx : 4 * (k + 1) + 3 = (4 * k + 3) + 1 + 1 + 1 + 1 := by ring
      rw [hidx]
      simp only [processPixels, List.getD_cons_succ]
      exact ih lrest rrest
    all_goals rfl

end Anaglyph
